import Mathlib

/-!
Shallow embedding of the request/response provider and servable layer
declared in `src/core/infer.h` (nvidia inferenceserver).  The header file
only declares the classes and their state; the method bodies live in a
translation unit that is not part of the sources, so each behavioral
definition below is modelled from the specification document and marked
as such in its doc comment.  Bytes are modelled as `Nat`, buffers as
`List Nat`, C++ status objects as an explicit `Status` inductive.
-/

namespace NvInfer

/-- Status results of the tensorflow-style error contract used by the code:
`ok`, invalid-argument, not-found and internal errors. -/
inductive Status where
  | ok : Status
  | invalidArgument : String → Status
  | notFound : String → Status
  | internalError : String → Status
deriving Repr, DecidableEq

/-- Tensor element types (a representative subset of the model-config types). -/
inductive DataType where
  | dtInt8 : DataType
  | dtInt32 : DataType
  | dtFp32 : DataType
deriving Repr, DecidableEq

/-- Byte size of one element of the given data type. -/
def elementSize : DataType → Nat
  | DataType.dtInt8 => 1
  | DataType.dtInt32 => 4
  | DataType.dtFp32 => 4

/-- `InferRequestHeader::Input`: a declared input of the request header
(name and declared byte size). -/
structure HeaderInput where
  name : String
  byte_size : Nat
deriving Repr, DecidableEq

/-- `InferRequestHeader::Output`: a requested output of the request header. -/
structure HeaderOutput where
  name : String
deriving Repr, DecidableEq

/-- `InferRequestHeader`: batch size, declared inputs, requested outputs. -/
structure InferRequestHeader where
  batch_size : Nat
  inputs : List HeaderInput
  outputs : List HeaderOutput
deriving Repr, DecidableEq

/-- `ModelInput` of the model configuration: name, element type and shape. -/
structure ModelInput where
  name : String
  data_type : DataType
  dims : List Nat
deriving Repr, DecidableEq

/-- Look up the model configuration for a named input
(`InferenceServable::GetInput` resolves over the input map). -/
def findModelInput (cfgs : List ModelInput) (name : String) : Option ModelInput :=
  cfgs.find? (fun c => c.name == name)

/-- Modelled from the spec: the body of
`InferRequestProvider::GetInputBatchByteSize` is not in the sources.  The
declared byte size of a header input must equal
element size × shape product × batch size derived from the model
configuration; mismatch is an invalid-argument failure. -/
def GetInputBatchByteSize (input : HeaderInput) (input_config : ModelInput)
    (batch_size : Nat) : Status × Nat :=
  let expected := elementSize input_config.data_type * input_config.dims.prod * batch_size
  if input.byte_size = expected then (Status.ok, expected)
  else (Status.invalidArgument "input byte size does not match expected size", 0)

/-- Modelled from the spec: validation of one declared input against the
model configuration.  Fails invalid-argument when the input has no
declared metadata in the configuration, or when the declared byte size
disagrees with the derived value. -/
def validateInput (cfgs : List ModelInput) (batch_size : Nat) (input : HeaderInput) : Status :=
  match findModelInput cfgs input.name with
  | none => Status.invalidArgument "unknown input"
  | some cfg => (GetInputBatchByteSize input cfg batch_size).1

/-- Per-input content state of the streaming (HTTP) provider: the block
list built at construction (`contents_`), the chunk cursor
(`contents_idx_`) and the lazily created contiguous scratch buffer
(`contiguous_buffers_`), merged into one record per input index. -/
structure InputContent where
  blocks : List (List Nat)
  cursor : Nat
  cached : Option (List Nat)
deriving Repr, DecidableEq

/-- `HTTPInferRequestProvider`: streaming-buffer request provider state. -/
structure HTTPInferRequestProvider where
  model_name : String
  version : Int
  request_header : InferRequestHeader
  contents : List InputContent
deriving Repr, DecidableEq

/-- Modelled from the spec: one sequential-read step on one input of the
streaming provider.  Without `force_contiguous` it returns the block at
the cursor and advances the cursor, or an absent chunk once exhausted.
With `force_contiguous` it returns the cached contiguous buffer when
present, otherwise assembles the entire remaining bytes into one block,
caches it and advances the cursor to the end. -/
def stepInput (c : InputContent) (force_contiguous : Bool) :
    Option (List Nat) × InputContent :=
  if force_contiguous then
    match c.cached with
    | some buf => (some buf, c)
    | none =>
      if c.cursor < c.blocks.length then
        let buf := (c.blocks.drop c.cursor).flatten
        (some buf, { c with cursor := c.blocks.length, cached := some buf })
      else (none, c)
  else
    match c.blocks[c.cursor]? with
    | some b => (some b, { c with cursor := c.cursor + 1 })
    | none => (none, c)

/-- Modelled from the spec: the body of
`HTTPInferRequestProvider::GetNextInputContent` is not in the sources.
Fails invalid-argument for an input index with no declared content;
otherwise performs one `stepInput` on the indexed entry and stores the
updated entry back. -/
def HTTPInferRequestProvider.GetNextInputContent (p : HTTPInferRequestProvider)
    (idx : Nat) (force_contiguous : Bool) :
    Status × Option (List Nat) × HTTPInferRequestProvider :=
  match p.contents[idx]? with
  | none => (Status.invalidArgument "unexpected input index", none, p)
  | some c =>
    let r := stepInput c force_contiguous
    (Status.ok, r.1, { p with contents := p.contents.set idx r.2 })

/-- Repeated sequential (`force_contiguous = false`) reads of one input,
collecting the returned chunks until an absent chunk, with enough fuel
for the remaining blocks. -/
def drainAux : Nat → HTTPInferRequestProvider → Nat →
    List (List Nat) × HTTPInferRequestProvider
  | 0, p, _ => ([], p)
  | fuel + 1, p, idx =>
    match p.GetNextInputContent idx false with
    | (Status.ok, some chunk, p2) =>
      let r := drainAux fuel p2 idx
      (chunk :: r.1, r.2)
    | _ => ([], p)

/-- All chunks produced by repeatedly calling `GetNextInputContent` with
`force_contiguous = false` on input `idx`, together with the provider
state after exhaustion. -/
def HTTPInferRequestProvider.drain (p : HTTPInferRequestProvider) (idx : Nat) :
    List (List Nat) × HTTPInferRequestProvider :=
  match p.contents[idx]? with
  | some c => drainAux (c.blocks.length - c.cursor) p idx
  | none => ([], p)

/-- `GRPCInferRequestProvider`: embedded-message request provider; the
input bytes live contiguously in the parsed request (`request_`), with a
per-input delivered flag (`content_delivered_`). -/
structure GRPCInferRequestProvider where
  model_name : String
  version : Int
  request_header : InferRequestHeader
  inputs : List (List Nat)
  content_delivered : List Bool
deriving Repr, DecidableEq

/-- Modelled from the spec: the body of
`GRPCInferRequestProvider::GetNextInputContent` is not in the sources.
Each input yields its entire bytes as exactly one chunk on the first
call, and an absent chunk on every later call; invalid-argument for an
index with no declared input. -/
def GRPCInferRequestProvider.GetNextInputContent (p : GRPCInferRequestProvider)
    (idx : Nat) (_force_contiguous : Bool) :
    Status × Option (List Nat) × GRPCInferRequestProvider :=
  match p.inputs[idx]?, p.content_delivered[idx]? with
  | some bytes, some delivered =>
    if delivered then (Status.ok, none, p)
    else (Status.ok, some bytes,
      { p with content_delivered := p.content_delivered.set idx true })
  | _, _ => (Status.invalidArgument "unexpected input index", none, p)

/-- Whether every declared input of the request header validates against
the model configuration (used by provider construction). -/
def requestValid (cfgs : List ModelInput) (hdr : InferRequestHeader) : Bool :=
  hdr.inputs.all (fun i => validateInput cfgs hdr.batch_size i == Status.ok)

/-- Whether the raw block lists supplied for the inputs line up with the
declared inputs: one block list per input, whose concatenated length is
the declared byte size. -/
def contentsMatch (hdr : InferRequestHeader) (raw : List (List (List Nat))) : Bool :=
  raw.length == hdr.inputs.length &&
    (List.zip hdr.inputs raw).all
      (fun pr => pr.1.byte_size == pr.2.flatten.length)

/-- Modelled from the spec: the body of
`HTTPInferRequestProvider::Create` is not in the sources.  Construction
assembles the per-input block lists and validates every declared input
byte size against the model configuration before the provider exists
(hence before anything can reach the scheduler); on failure no provider
is produced. -/
def HTTPInferRequestProvider.Create (model_name : String) (version : Int)
    (cfgs : List ModelInput) (hdr : InferRequestHeader)
    (raw : List (List (List Nat))) : Except Status HTTPInferRequestProvider :=
  if requestValid cfgs hdr && contentsMatch hdr raw then
    Except.ok
      { model_name := model_name
        version := version
        request_header := hdr
        contents := raw.map (fun blocks => { blocks := blocks, cursor := 0, cached := none }) }
  else Except.error (Status.invalidArgument "input validation failed")

/-- Ledger entry `InferResponseProvider::Output`: name, shape, byte size
and the created buffer. -/
structure Output where
  name : String
  shape : List Int
  byte_size : Nat
  buffer : List Nat
deriving Repr, DecidableEq

/-- One finalized output record of `InferResponseHeader`. -/
structure ResponseHeaderOutput where
  name : String
  shape : List Int
  byte_size : Nat
  content : List Nat
deriving Repr, DecidableEq

/-- `InferResponseHeader`: the outputs written by finalization. -/
structure InferResponseHeader where
  outputs : List ResponseHeaderOutput
deriving Repr, DecidableEq

/-- `InferResponseProvider` state: the request header, the map from
output name to the requested-output information (`output_map_`), the
ordered ledger (`outputs_`), the built response header and whether
finalization already ran. -/
structure InferResponseProvider where
  request_header : InferRequestHeader
  output_map : List (String × HeaderOutput)
  outputs : List Output
  finalized : Bool
  response_header : InferResponseHeader
deriving Repr, DecidableEq

/-- The output map built from the request header's requested outputs. -/
def mkOutputMap (outs : List HeaderOutput) : List (String × HeaderOutput) :=
  outs.map (fun o => (o.name, o))

/-- Constructor `InferResponseProvider(request_header)`: starts with an
empty ledger and the output map of the requested outputs. -/
def mkInferResponseProvider (hdr : InferRequestHeader) : InferResponseProvider :=
  { request_header := hdr
    output_map := mkOutputMap hdr.outputs
    outputs := []
    finalized := false
    response_header := { outputs := [] } }

/-- Modelled from the spec: the body of
`InferResponseProvider::RequiresOutput` is not in the sources.  True iff
the name is in the output map built from the request header's
requested-output set. -/
def InferResponseProvider.RequiresOutput (p : InferResponseProvider)
    (name : String) : Bool :=
  (p.output_map.find? (fun kv => kv.1 == name)).isSome

/-- The names of the ledger entries, in insertion order. -/
def producedNames (p : InferResponseProvider) : List String :=
  p.outputs.map (fun o => o.name)

/-- Modelled from the spec: the body of
`InferResponseProvider::CheckAndSetIfBufferedOutput` is not in the
sources.  Fails invalid-argument when the name was never requested;
producing the same name twice is a contract violation; otherwise
allocates a buffer of exactly the given byte size and appends one ledger
entry. -/
def InferResponseProvider.CheckAndSetIfBufferedOutput (p : InferResponseProvider)
    (name : String) (content_byte_size : Nat) (content_shape : List Int) :
    Status × Option Output × InferResponseProvider :=
  if (p.output_map.find? (fun kv => kv.1 == name)).isSome then
    if p.outputs.any (fun o => o.name == name) then
      (Status.internalError "output already produced", none, p)
    else
      let o : Output :=
        { name := name
          shape := content_shape
          byte_size := content_byte_size
          buffer := List.replicate content_byte_size 0 }
      (Status.ok, some o, { p with outputs := p.outputs ++ [o] })
  else (Status.invalidArgument "output was not requested", none, p)

/-- Modelled from the spec: the variant bodies of
`InferResponseProvider::GetOutputBuffer` are not in the sources; both
delegate the check-and-record step to `CheckAndSetIfBufferedOutput` and
return the created buffer. -/
def InferResponseProvider.GetOutputBuffer (p : InferResponseProvider)
    (name : String) (content_byte_size : Nat) (content_shape : List Int) :
    Status × Option (List Nat) × InferResponseProvider :=
  let r := p.CheckAndSetIfBufferedOutput name content_byte_size content_shape
  (r.1, r.2.1.map (fun o => o.buffer), r.2.2)

/-- Whether every requested output has a ledger entry. -/
def allOutputsProduced (p : InferResponseProvider) : Bool :=
  p.output_map.all (fun kv => (producedNames p).contains kv.1)

/-- Modelled from the spec: the body of
`InferResponseProvider::FinalizeResponse` is not in the sources.  Runs at
most once (a second attempt is an internal error), only once every
requested output has a ledger entry, and walks the ledger in insertion
order writing name, shape, byte size and content into the response
header. -/
def InferResponseProvider.FinalizeResponse (p : InferResponseProvider) :
    Status × InferResponseProvider :=
  if p.finalized then (Status.internalError "response already finalized", p)
  else if allOutputsProduced p then
    (Status.ok,
      { p with
        finalized := true
        response_header :=
          { outputs := p.outputs.map (fun o =>
              { name := o.name
                shape := o.shape
                byte_size := o.byte_size
                content := o.buffer }) } })
  else (Status.internalError "not all requested outputs produced", p)

/-- Response-provider states reachable from construction by any sequence
of `RequiresOutput` (pure), `GetOutputBuffer` and `FinalizeResponse`
calls. -/
inductive Reachable : InferResponseProvider → Prop where
  | init (hdr : InferRequestHeader) : Reachable (mkInferResponseProvider hdr)
  | getBuffer (p : InferResponseProvider) (name : String) (bs : Nat) (shape : List Int) :
      Reachable p → Reachable (p.GetOutputBuffer name bs shape).2.2
  | finalize (p : InferResponseProvider) :
      Reachable p → Reachable (p.FinalizeResponse).2

/-- One lazily-filled metric cache of the servable
(`std::map<int, prometheus::Counter*>`): series are identified by the
id the metric family handed out, `next_id` is the next fresh id. -/
structure MetricMap where
  next_id : Nat
  entries : List (Int × Nat)
deriving Repr, DecidableEq

/-- Modelled from the spec: the body of
`InferenceServable::GetCounterMetric` is not in the sources.  Looks the
device index up in the cache; on a miss it creates a fresh series in the
family and caches it under that device key, so later calls reuse it. -/
def GetCounterMetric (m : MetricMap) (gpu_device : Int) : Nat × MetricMap :=
  match m.entries.find? (fun kv => kv.1 == gpu_device) with
  | some kv => (kv.2, m)
  | none =>
    (m.next_id,
      { next_id := m.next_id + 1, entries := m.entries ++ [(gpu_device, m.next_id)] })

/-- `InferenceServable` state relevant to the claims: the at-most-once
scheduler slot and the per-device metric caches (one representative
counter cache shown; the others are identical copies of the pattern). -/
structure InferenceServable where
  scheduler_ : Option Nat
  metric_inf_success_ : MetricMap
  metric_inf_failure_ : MetricMap
deriving Repr, DecidableEq

/-- Modelled from the spec: the body of
`InferenceServable::SetScheduler` is not in the sources.  The scheduler
can only be set once for a servable: the first call installs it, a
second call fails and leaves the installed scheduler unchanged. -/
def InferenceServable.SetScheduler (s : InferenceServable) (sched : Nat) :
    Status × InferenceServable :=
  match s.scheduler_ with
  | some _ => (Status.internalError "scheduler is already set", s)
  | none => (Status.ok, { s with scheduler_ := some sched })

/-- `InferenceServable::MetricInferenceSuccess`: the success-count
accessor, delegating to `GetCounterMetric` on its cache. -/
def InferenceServable.MetricInferenceSuccess (s : InferenceServable)
    (gpu_device : Int) : Nat × InferenceServable :=
  let r := GetCounterMetric s.metric_inf_success_ gpu_device
  (r.1, { s with metric_inf_success_ := r.2 })

/-! ### Helper lemmas -/

theorem set_of_getElem? {α : Type} {l : List α} {n : Nat} {a : α}
    (h : l[n]? = some a) : l.set n a = l := by
  induction l generalizing n with
  | nil => simp at h
  | cons x xs ih =>
    cases n with
    | zero => simp at h; simp [List.set, h]
    | succ m =>
      simp only [List.getElem?_cons_succ] at h
      simp [List.set, ih h]

theorem getNext_eq_stepInput (p : HTTPInferRequestProvider) (idx : Nat)
    (c : InputContent) (b : Bool) (hc : p.contents[idx]? = some c) :
    p.GetNextInputContent idx b =
      (Status.ok, (stepInput c b).1,
        { p with contents := p.contents.set idx (stepInput c b).2 }) := by
  unfold HTTPInferRequestProvider.GetNextInputContent
  rw [hc]

theorem stepInput_exhausted (c : InputContent) (h : c.blocks.length ≤ c.cursor) :
    stepInput c false = (none, c) := by
  unfold stepInput
  rw [List.getElem?_eq_none h]
  simp

theorem getNext_exhausted (p : HTTPInferRequestProvider) (idx : Nat)
    (c : InputContent) (hc : p.contents[idx]? = some c)
    (h : c.blocks.length ≤ c.cursor) :
    p.GetNextInputContent idx false = (Status.ok, none, p) := by
  rw [getNext_eq_stepInput p idx c false hc, stepInput_exhausted c h,
    set_of_getElem? hc]

theorem drainAux_spec (n : Nat) : ∀ (p : HTTPInferRequestProvider) (idx : Nat)
    (c : InputContent), p.contents[idx]? = some c →
    c.cursor + n = c.blocks.length →
    drainAux n p idx =
      (c.blocks.drop c.cursor,
        { p with contents := p.contents.set idx { c with cursor := c.blocks.length } }) := by
  induction n with
  | zero =>
    intro p idx c hc hn
    have hcur : c.cursor = c.blocks.length := by omega
    have hdrop : c.blocks.drop c.cursor = [] := by
      rw [List.drop_eq_nil_iff]
      omega
    have hcc : ({ c with cursor := c.blocks.length } : InputContent) = c := by
      cases c
      simp_all
    rw [drainAux, hdrop, hcc, set_of_getElem? hc]
  | succ m ih =>
    intro p idx c hc hn
    have hlt : c.cursor < c.blocks.length := by omega
    have hidx : idx < p.contents.length := by
      rcases List.getElem?_eq_some.mp hc with ⟨h, _⟩
      exact h
    have hblk : c.blocks[c.cursor]? = some (c.blocks[c.cursor]) :=
      List.getElem?_eq_getElem hlt
    have hstep : stepInput c false =
        (some (c.blocks[c.cursor]), { c with cursor := c.cursor + 1 }) := by
      unfold stepInput
      rw [hblk]
      simp
    have hget := getNext_eq_stepInput p idx c false hc
    rw [hstep] at hget
    have hc2 : ({ p with
        contents := p.contents.set idx { c with cursor := c.cursor + 1 } } :
          HTTPInferRequestProvider).contents[idx]? =
        some { c with cursor := c.cursor + 1 } :=
      List.getElem?_set_self hidx
    have hrec := ih _ idx { c with cursor := c.cursor + 1 } hc2 (by simpa using by omega)
    rw [drainAux, hget]
    simp only [hrec, List.set_set]
    rw [← List.drop_eq_getElem_cons hlt]

theorem drain_spec (p : HTTPInferRequestProvider) (idx : Nat) (c : InputContent)
    (hc : p.contents[idx]? = some c) (h0 : c.cursor = 0) :
    p.drain idx =
      (c.blocks,
        { p with contents := p.contents.set idx { c with cursor := c.blocks.length } }) := by
  have h1 : p.drain idx = drainAux (c.blocks.length - c.cursor) p idx := by
    unfold HTTPInferRequestProvider.drain
    rw [hc]
  have h2 := drainAux_spec (c.blocks.length - c.cursor) p idx c hc (by omega)
  rw [h1, h2, h0]
  simp

/-! ### Claims about the request providers -/

/-- Claim C1: for a streaming request provider whose declared byte size for
an input is consistent with the bytes actually supplied, repeated
`GetNextInputContent` calls with `force_contiguous = false` return a
sequence of chunks whose concatenation equals exactly the declared bytes
for that input, and every call after the input is exhausted returns an
absent chunk with a success status, never an error. -/
theorem claim_c1_sequential_chunks (p : HTTPInferRequestProvider) (idx : Nat)
    (c : InputContent) (declared : Nat)
    (hc : p.contents[idx]? = some c) (h0 : c.cursor = 0)
    (hcons : c.blocks.flatten.length = declared) :
    (p.drain idx).1.flatten = c.blocks.flatten ∧
    (p.drain idx).1.flatten.length = declared ∧
    (p.drain idx).2.GetNextInputContent idx false =
      (Status.ok, none, (p.drain idx).2) ∧
    ∀ (q : HTTPInferRequestProvider) (c2 : InputContent),
      q.contents[idx]? = some c2 → c2.blocks.length ≤ c2.cursor →
      q.GetNextInputContent idx false = (Status.ok, none, q) := by
  obtain ⟨hidx, -⟩ := List.getElem?_eq_some.mp hc
  have hd := drain_spec p idx c hc h0
  refine ⟨by rw [hd], by rw [hd]; exact hcons, ?_,
    fun q c2 hq hx => getNext_exhausted q idx c2 hq hx⟩
  rw [hd]
  exact getNext_exhausted _ idx { c with cursor := c.blocks.length }
    (List.getElem?_set_self hidx) (le_refl _)

/-- Concrete streaming provider: input 0 declared as 4 bytes supplied in
two blocks of 2 bytes. -/
def cw1 : HTTPInferRequestProvider :=
  { model_name := "m"
    version := 1
    request_header :=
      { batch_size := 1, inputs := [{ name := "A", byte_size := 4 }], outputs := [] }
    contents := [{ blocks := [[1, 2], [3, 4]], cursor := 0, cached := none }] }

/-- Witness for claim C1 at a concrete provider. -/
theorem claim_c1_sequential_chunks_witness :
    (cw1.drain 0).1.flatten = [1, 2, 3, 4] ∧
    (cw1.drain 0).2.GetNextInputContent 0 false =
      (Status.ok, none, (cw1.drain 0).2) := by
  have h := claim_c1_sequential_chunks cw1 0
    { blocks := [[1, 2], [3, 4]], cursor := 0, cached := none } 4
    (by decide) rfl (by decide)
  exact ⟨h.1.trans (by decide), h.2.2.1⟩

/-- Claim C2: on a streaming provider, for an input with remaining bytes,
`GetNextInputContent` with `force_contiguous = true` returns one single
block byte-identical to the concatenation of all remaining chunks of that
input, and a second `force_contiguous` call on the same input returns the
identical cached buffer and leaves the provider unchanged. -/
theorem claim_c2_force_contiguous (p : HTTPInferRequestProvider) (idx : Nat)
    (c : InputContent) (hc : p.contents[idx]? = some c)
    (hcache : c.cached = none) (hrem : c.cursor < c.blocks.length) :
    (p.GetNextInputContent idx true).1 = Status.ok ∧
    (p.GetNextInputContent idx true).2.1 =
      some ((c.blocks.drop c.cursor).flatten) ∧
    (p.GetNextInputContent idx true).2.2.GetNextInputContent idx true =
      (Status.ok, some ((c.blocks.drop c.cursor).flatten),
        (p.GetNextInputContent idx true).2.2) := by
  obtain ⟨hidx, -⟩ := List.getElem?_eq_some.mp hc
  have hstep : stepInput c true =
      (some ((c.blocks.drop c.cursor).flatten),
        { c with cursor := c.blocks.length, cached := some ((c.blocks.drop c.cursor).flatten) }) := by
    unfold stepInput
    rw [hcache]
    simp [hrem]
  have hget := getNext_eq_stepInput p idx c true hc
  rw [hstep] at hget
  rw [hget]
  refine ⟨rfl, rfl, ?_⟩
  have hq : ({ p with contents := p.contents.set idx { c with cursor := c.blocks.length, cached := some ((c.blocks.drop c.cursor).flatten) } } :
      HTTPInferRequestProvider).contents[idx]? =
      some { c with cursor := c.blocks.length, cached := some ((c.blocks.drop c.cursor).flatten) } :=
    List.getElem?_set_self hidx
  rw [getNext_eq_stepInput _ idx _ true hq]
  have hstep2 : stepInput
      { c with cursor := c.blocks.length, cached := some ((c.blocks.drop c.cursor).flatten) } true =
      (some ((c.blocks.drop c.cursor).flatten),
        { c with cursor := c.blocks.length, cached := some ((c.blocks.drop c.cursor).flatten) }) := by
    unfold stepInput
    simp
  rw [hstep2]
  simp [List.set_set]

/-- Concrete streaming provider for the contiguous-read witness. -/
def cw2 : HTTPInferRequestProvider :=
  { model_name := "m"
    version := 1
    request_header :=
      { batch_size := 1, inputs := [{ name := "A", byte_size := 4 }], outputs := [] }
    contents := [{ blocks := [[1, 2], [3, 4]], cursor := 0, cached := none }] }

/-- Witness for claim C2 at a concrete provider. -/
theorem claim_c2_force_contiguous_witness :
    (cw2.GetNextInputContent 0 true).2.1 = some [1, 2, 3, 4] ∧
    (cw2.GetNextInputContent 0 true).2.2.GetNextInputContent 0 true =
      (Status.ok, some [1, 2, 3, 4], (cw2.GetNextInputContent 0 true).2.2) := by
  have h := claim_c2_force_contiguous cw2 0
    { blocks := [[1, 2], [3, 4]], cursor := 0, cached := none }
    (by decide) rfl (by decide)
  refine ⟨h.2.1.trans (by decide), ?_⟩
  have := h.2.2
  simpa using this

/-- Claim C8: on an embedded-message (gRPC) provider, the first
`GetNextInputContent` call for an input index with declared content
returns the input's entire bytes as exactly one chunk, and every later
call for the same index returns an absent chunk with a success status. -/
theorem claim_c8_grpc_single_chunk (p : GRPCInferRequestProvider) (idx : Nat)
    (bytes : List Nat) (hin : p.inputs[idx]? = some bytes)
    (hdel : p.content_delivered[idx]? = some false) :
    (p.GetNextInputContent idx false).1 = Status.ok ∧
    (p.GetNextInputContent idx false).2.1 = some bytes ∧
    ∀ b : Bool, (p.GetNextInputContent idx false).2.2.GetNextInputContent idx b =
      (Status.ok, none, (p.GetNextInputContent idx false).2.2) := by
  obtain ⟨hidx, -⟩ := List.getElem?_eq_some.mp hdel
  have h1 : p.GetNextInputContent idx false =
      (Status.ok, some bytes,
        { p with content_delivered := p.content_delivered.set idx true }) := by
    unfold GRPCInferRequestProvider.GetNextInputContent
    rw [hin, hdel]
    simp
  have h3 : (p.GetNextInputContent idx false).2.2 =
      { p with content_delivered := p.content_delivered.set idx true } := by
    rw [h1]
  refine ⟨by rw [h1], by rw [h1], fun b => ?_⟩
  rw [h3]
  unfold GRPCInferRequestProvider.GetNextInputContent
  have h2 : ({ p with content_delivered := p.content_delivered.set idx true } :
      GRPCInferRequestProvider).content_delivered[idx]? = some true :=
    List.getElem?_set_self hidx
  rw [show ({ p with content_delivered := p.content_delivered.set idx true } :
      GRPCInferRequestProvider).inputs[idx]? = some bytes from hin, h2]
  simp

/-- Concrete embedded-message provider with one 4-byte input. -/
def cw8 : GRPCInferRequestProvider :=
  { model_name := "m"
    version := 1
    request_header :=
      { batch_size := 1, inputs := [{ name := "A", byte_size := 4 }], outputs := [] }
    inputs := [[7, 8, 9, 10]]
    content_delivered := [false] }

/-- Witness for claim C8 at a concrete provider. -/
theorem claim_c8_grpc_single_chunk_witness :
    (cw8.GetNextInputContent 0 false).2.1 = some [7, 8, 9, 10] ∧
    (cw8.GetNextInputContent 0 false).2.2.GetNextInputContent 0 false =
      (Status.ok, none, (cw8.GetNextInputContent 0 false).2.2) := by
  have h := claim_c8_grpc_single_chunk cw8 0 [7, 8, 9, 10] (by decide) (by decide)
  exact ⟨h.2.1, h.2.2 false⟩

/-! ### Response provider lemmas -/

theorem requiresOutput_iff (p : InferResponseProvider) (name : String) :
    p.RequiresOutput name = true ↔ name ∈ p.output_map.map Prod.fst := by
  simp [InferResponseProvider.RequiresOutput, List.find?_isSome, List.mem_map]

theorem mkOutputMap_keys (outs : List HeaderOutput) :
    (mkOutputMap outs).map Prod.fst = outs.map (fun o => o.name) := by
  simp [mkOutputMap]

theorem any_name_eq_false_iff (p : InferResponseProvider) (name : String) :
    p.outputs.any (fun o => o.name == name) = false ↔ name ∉ producedNames p := by
  simp [producedNames, List.any_eq_false, List.mem_map]

theorem getOutputBuffer_not_requested (p : InferResponseProvider) (name : String)
    (bs : Nat) (shape : List Int) (h : p.RequiresOutput name = false) :
    p.GetOutputBuffer name bs shape =
      (Status.invalidArgument "output was not requested", none, p) := by
  unfold InferResponseProvider.GetOutputBuffer
    InferResponseProvider.CheckAndSetIfBufferedOutput
  unfold InferResponseProvider.RequiresOutput at h
  simp [h]

theorem getOutputBuffer_dup (p : InferResponseProvider) (name : String)
    (bs : Nat) (shape : List Int) (hreq : p.RequiresOutput name = true)
    (hdup : p.outputs.any (fun o => o.name == name) = true) :
    p.GetOutputBuffer name bs shape =
      (Status.internalError "output already produced", none, p) := by
  unfold InferResponseProvider.GetOutputBuffer
    InferResponseProvider.CheckAndSetIfBufferedOutput
  unfold InferResponseProvider.RequiresOutput at hreq
  simp [hreq, hdup]

theorem getOutputBuffer_fresh (p : InferResponseProvider) (name : String)
    (bs : Nat) (shape : List Int) (hreq : p.RequiresOutput name = true)
    (hdup : p.outputs.any (fun o => o.name == name) = false) :
    p.GetOutputBuffer name bs shape =
      (Status.ok, some (List.replicate bs 0),
        { p with outputs := p.outputs ++
            [{ name := name, shape := shape, byte_size := bs, buffer := List.replicate bs 0 }] }) := by
  unfold InferResponseProvider.GetOutputBuffer
    InferResponseProvider.CheckAndSetIfBufferedOutput
  unfold InferResponseProvider.RequiresOutput at hreq
  simp [hreq, hdup]

theorem finalize_already (p : InferResponseProvider) (h : p.finalized = true) :
    p.FinalizeResponse = (Status.internalError "response already finalized", p) := by
  unfold InferResponseProvider.FinalizeResponse
  simp [h]

theorem finalize_missing (p : InferResponseProvider) (h1 : p.finalized = false)
    (h2 : allOutputsProduced p = false) :
    p.FinalizeResponse = (Status.internalError "not all requested outputs produced", p) := by
  unfold InferResponseProvider.FinalizeResponse
  simp [h1, h2]

theorem finalize_ok (p : InferResponseProvider) (h1 : p.finalized = false)
    (h2 : allOutputsProduced p = true) :
    p.FinalizeResponse =
      (Status.ok,
        { p with finalized := true, response_header := { outputs := p.outputs.map (fun o => { name := o.name, shape := o.shape, byte_size := o.byte_size, content := o.buffer }) } }) := by
  unfold InferResponseProvider.FinalizeResponse
  simp [h1, h2]

/-- Invariant of response-provider states: the output map is the one built
from the request header, every ledger entry is a requested output, and no
two ledger entries share a name. -/
def LedgerInv (p : InferResponseProvider) : Prop :=
  p.output_map = mkOutputMap p.request_header.outputs ∧
  (∀ o ∈ p.outputs, o.name ∈ p.request_header.outputs.map (fun ho => ho.name)) ∧
  (producedNames p).Nodup

theorem reachable_ledger_inv (p : InferResponseProvider) (h : Reachable p) :
    LedgerInv p := by
  induction h with
  | init hdr =>
    refine ⟨rfl, ?_, ?_⟩
    · intro o ho
      simp [mkInferResponseProvider] at ho
    · simp [producedNames, mkInferResponseProvider]
  | getBuffer p name bs shape hp ih =>
    obtain ⟨hmap, hmem, hnodup⟩ := ih
    rcases Bool.eq_false_or_eq_true (p.RequiresOutput name) with hreq | hreq
    · rcases Bool.eq_false_or_eq_true (p.outputs.any (fun o => o.name == name)) with hdup | hdup
      · rw [getOutputBuffer_dup p name bs shape hreq hdup]
        exact ⟨hmap, hmem, hnodup⟩
      · rw [getOutputBuffer_fresh p name bs shape hreq hdup]
        refine ⟨hmap, ?_, ?_⟩
        · intro o ho
          rcases List.mem_append.mp ho with ho | ho
          · exact hmem o ho
          · have : o = { name := name, shape := shape, byte_size := bs, buffer := List.replicate bs 0 } := by
              simpa using ho
            subst this
            have := (requiresOutput_iff p name).mp hreq
            rw [hmap, mkOutputMap_keys] at this
            exact this
        · have hnotin : name ∉ producedNames p := (any_name_eq_false_iff p name).mp hdup
          simp only [producedNames, List.map_append, List.map_cons, List.map_nil]
          rw [List.nodup_append]
          refine ⟨hnodup, by simp, ?_⟩
          intro a ha hb
          simp at hb
          subst hb
          exact hnotin ha
    · rw [getOutputBuffer_not_requested p name bs shape hreq]
      exact ⟨hmap, hmem, hnodup⟩
  | finalize p hp ih =>
    obtain ⟨hmap, hmem, hnodup⟩ := ih
    rcases Bool.eq_false_or_eq_true p.finalized with hfin | hfin
    · rw [finalize_already p hfin]
      exact ⟨hmap, hmem, hnodup⟩
    · rcases Bool.eq_false_or_eq_true (allOutputsProduced p) with hall | hall
      · rw [finalize_ok p hfin hall]
        exact ⟨hmap, hmem, hnodup⟩
      · rw [finalize_missing p hfin hall]
        exact ⟨hmap, hmem, hnodup⟩

/-! ### Claims about the response provider -/

/-- Claim C3 (amended): `GetOutputBuffer` fails invalid-argument whenever
the name is not in the request header's requested-output set; when the
name is requested and has no ledger entry yet, the call succeeds and
appends exactly one ledger entry with that name, shape, byte size and a
buffer of exactly that byte size; and in every reachable provider state
no output name has more than one ledger entry. -/
theorem claim_c3_get_output_buffer (p : InferResponseProvider) (name : String)
    (bs : Nat) (shape : List Int) :
    (p.RequiresOutput name = false →
      p.GetOutputBuffer name bs shape =
        (Status.invalidArgument "output was not requested", none, p)) ∧
    (p.RequiresOutput name = true → name ∉ producedNames p →
      p.GetOutputBuffer name bs shape =
        (Status.ok, some (List.replicate bs 0),
          { p with outputs := p.outputs ++ [{ name := name, shape := shape, byte_size := bs, buffer := List.replicate bs 0 }] })) ∧
    (Reachable p → (producedNames p).Nodup) :=
  ⟨fun h => getOutputBuffer_not_requested p name bs shape h,
    fun hreq hnot =>
      getOutputBuffer_fresh p name bs shape hreq ((any_name_eq_false_iff p name).mpr hnot),
    fun hr => (reachable_ledger_inv p hr).2.2⟩

/-- Request header requesting only output "B" (for the C3 witnesses). -/
def hdrB3 : InferRequestHeader :=
  { batch_size := 1, inputs := [], outputs := [{ name := "B" }] }

/-- The provider after output "B" has been produced once. -/
def c3p1 : InferResponseProvider :=
  ((mkInferResponseProvider hdrB3).GetOutputBuffer "B" 4 [1, 4]).2.2

/-- Counterexample to claim C3 as stated: in the state where requested
output "B" already has a ledger entry, "B" is still in the
requested-output set but a second `GetOutputBuffer` call for it does not
succeed. -/
theorem claim_c3_counterexample :
    c3p1.RequiresOutput "B" = true ∧
    (c3p1.GetOutputBuffer "B" 4 [1, 4]).1 ≠ Status.ok := by
  decide

/-- Witness for the amended claim C3 at concrete inputs. -/
theorem claim_c3_get_output_buffer_witness :
    (mkInferResponseProvider hdrB3).GetOutputBuffer "C" 4 [1, 4] =
      (Status.invalidArgument "output was not requested", none,
        mkInferResponseProvider hdrB3) ∧
    ((mkInferResponseProvider hdrB3).GetOutputBuffer "B" 4 [1, 4]).1 = Status.ok ∧
    (producedNames c3p1).Nodup := by
  refine ⟨(claim_c3_get_output_buffer (mkInferResponseProvider hdrB3) "C" 4 [1, 4]).1 (by decide),
    ?_, (claim_c3_get_output_buffer c3p1 "B" 4 [1, 4]).2.2
      (Reachable.getBuffer (mkInferResponseProvider hdrB3) "B" 4 [1, 4]
        (Reachable.init hdrB3))⟩
  rw [(claim_c3_get_output_buffer (mkInferResponseProvider hdrB3) "B" 4 [1, 4]).2.1
    (by decide) (by decide)]

/-- Claim C5: `FinalizeResponse` executes at most once (a second attempt
fails and leaves the provider unchanged), executes successfully only when
every requested output has a ledger entry, and on success writes the
ledger entries into the response header in insertion order with their
shape, byte size and content. -/
theorem claim_c5_finalize_response (p : InferResponseProvider) :
    (p.finalized = true →
      p.FinalizeResponse = (Status.internalError "response already finalized", p)) ∧
    ((p.FinalizeResponse).1 = Status.ok →
      p.finalized = false ∧
      (∀ name : String, p.RequiresOutput name = true → name ∈ producedNames p) ∧
      (p.FinalizeResponse).2.finalized = true ∧
      (p.FinalizeResponse).2.response_header.outputs =
        p.outputs.map (fun o => { name := o.name, shape := o.shape, byte_size := o.byte_size, content := o.buffer })) := by
  refine ⟨fun h => finalize_already p h, fun hok => ?_⟩
  rcases Bool.eq_false_or_eq_true p.finalized with hfin | hfin
  · rw [finalize_already p hfin] at hok
    simp at hok
  · rcases Bool.eq_false_or_eq_true (allOutputsProduced p) with hall | hall
    · refine ⟨hfin, ?_, ?_, ?_⟩
      · intro name hname
        obtain ⟨kv, hkv, hkv1⟩ :=
          List.mem_map.mp ((requiresOutput_iff p name).mp hname)
        have hcont := List.all_eq_true.mp hall kv hkv
        rw [hkv1] at hcont
        obtain ⟨a, ha, hab⟩ := List.contains_iff_exists_mem_beq.mp hcont
        rw [beq_iff_eq] at hab
        rw [hab]
        exact ha
      · rw [finalize_ok p hfin hall]
      · rw [finalize_ok p hfin hall]
    · rw [finalize_missing p hfin hall] at hok
      simp at hok

/-- Request header requesting only output "B" (for the C5 witness). -/
def hdrB5 : InferRequestHeader :=
  { batch_size := 1, inputs := [], outputs := [{ name := "B" }] }

/-- A provider already finalized. -/
def c5pF : InferResponseProvider :=
  { mkInferResponseProvider hdrB5 with finalized := true }

/-- The provider after output "B" has been produced. -/
def c5p1 : InferResponseProvider :=
  ((mkInferResponseProvider hdrB5).GetOutputBuffer "B" 4 [1, 4]).2.2

/-- Witness for claim C5 at concrete providers. -/
theorem claim_c5_finalize_response_witness :
    c5pF.FinalizeResponse = (Status.internalError "response already finalized", c5pF) ∧
    (c5p1.FinalizeResponse).2.finalized = true :=
  ⟨(claim_c5_finalize_response c5pF).1 rfl,
    ((claim_c5_finalize_response c5p1).2 (by decide)).2.2.1⟩

/-- Claim C9: for every reachable response provider, `RequiresOutput name`
returns true if and only if the name is in the request header's
requested-output set. -/
theorem claim_c9_requires_output (p : InferResponseProvider) (hr : Reachable p)
    (name : String) :
    p.RequiresOutput name = true ↔
      name ∈ p.request_header.outputs.map (fun ho => ho.name) := by
  have hmap := (reachable_ledger_inv p hr).1
  rw [requiresOutput_iff, hmap, mkOutputMap_keys]

/-- Request header requesting only output "B" (for the C9 witness). -/
def hdrB9 : InferRequestHeader :=
  { batch_size := 1, inputs := [], outputs := [{ name := "B" }] }

/-- Witness for claim C9 at a concrete provider. -/
theorem claim_c9_requires_output_witness :
    (mkInferResponseProvider hdrB9).RequiresOutput "B" = true ∧
    (mkInferResponseProvider hdrB9).RequiresOutput "C" = false := by
  have h1 := claim_c9_requires_output (mkInferResponseProvider hdrB9)
    (Reachable.init hdrB9) "B"
  have h2 := claim_c9_requires_output (mkInferResponseProvider hdrB9)
    (Reachable.init hdrB9) "C"
  refine ⟨h1.mpr (by decide), ?_⟩
  rcases Bool.eq_false_or_eq_true ((mkInferResponseProvider hdrB9).RequiresOutput "C")
    with hcv | hcv
  · exact absurd (h2.mp hcv) (by decide)
  · exact hcv

/-- Claim C10: in every response-provider state reachable by any sequence
of `RequiresOutput`, `GetOutputBuffer` and `FinalizeResponse` calls, every
ledger entry's name belongs to the request header's requested-output set,
and no two ledger entries share the same name. -/
theorem claim_c10_ledger_invariant (p : InferResponseProvider) (hr : Reachable p) :
    (∀ o ∈ p.outputs, o.name ∈ p.request_header.outputs.map (fun ho => ho.name)) ∧
    (producedNames p).Nodup :=
  ⟨(reachable_ledger_inv p hr).2.1, (reachable_ledger_inv p hr).2.2⟩

/-- Request header requesting only output "B" (for the C10 witness). -/
def hdrB10 : InferRequestHeader :=
  { batch_size := 1, inputs := [], outputs := [{ name := "B" }] }

/-- The provider after output "B" has been produced once. -/
def c10p1 : InferResponseProvider :=
  ((mkInferResponseProvider hdrB10).GetOutputBuffer "B" 4 [1, 4]).2.2

/-- Witness for claim C10 at a concrete reachable provider. -/
theorem claim_c10_ledger_invariant_witness : (producedNames c10p1).Nodup :=
  (claim_c10_ledger_invariant c10p1
    (Reachable.getBuffer (mkInferResponseProvider hdrB10) "B" 4 [1, 4]
      (Reachable.init hdrB10))).2

/-! ### Claims about validation, scheduler and metrics -/

/-- Claim C4: the input-byte-size consistency check fails with an
invalid-argument condition when the input has no declared metadata or
when the declared byte size disagrees with element size × shape product ×
batch size; and any provider produced by `Create` (hence anything that
can reach the scheduler) has every declared input validated. -/
theorem claim_c4_input_validation :
    (∀ (cfgs : List ModelInput) (batch : Nat) (input : HeaderInput),
      findModelInput cfgs input.name = none →
      validateInput cfgs batch input = Status.invalidArgument "unknown input") ∧
    (∀ (cfgs : List ModelInput) (batch : Nat) (input : HeaderInput) (cfg : ModelInput),
      findModelInput cfgs input.name = some cfg →
      input.byte_size ≠ elementSize cfg.data_type * cfg.dims.prod * batch →
      validateInput cfgs batch input =
        Status.invalidArgument "input byte size does not match expected size") ∧
    (∀ (mn : String) (v : Int) (cfgs : List ModelInput) (hdr : InferRequestHeader)
      (raw : List (List (List Nat))) (p : HTTPInferRequestProvider),
      HTTPInferRequestProvider.Create mn v cfgs hdr raw = Except.ok p →
      ∀ i ∈ hdr.inputs, validateInput cfgs hdr.batch_size i = Status.ok) := by
  refine ⟨?_, ?_, ?_⟩
  · intro cfgs batch input h
    unfold validateInput
    rw [h]
  · intro cfgs batch input cfg h hne
    unfold validateInput
    rw [h]
    unfold GetInputBatchByteSize
    simp [hne]
  · intro mn v cfgs hdr raw p h i hi
    unfold HTTPInferRequestProvider.Create at h
    rcases Bool.eq_false_or_eq_true (requestValid cfgs hdr && contentsMatch hdr raw)
      with hv | hv
    · have h1 := ((Bool.and_eq_true _ _).mp hv).1
      have h2 : ∀ x ∈ hdr.inputs, validateInput cfgs hdr.batch_size x = Status.ok := by
        simpa [requestValid, List.all_eq_true] using h1
      exact h2 i hi
    · rw [hv] at h
      simp at h

/-- Model configuration with one int8 input "A" of shape [4]. -/
def cfg4 : List ModelInput :=
  [{ name := "A", data_type := DataType.dtInt8, dims := [4] }]

/-- Request header declaring input "A" with 4 bytes. -/
def hdr4 : InferRequestHeader :=
  { batch_size := 1, inputs := [{ name := "A", byte_size := 4 }], outputs := [] }

/-- The provider `Create` builds for `hdr4` and two 2-byte blocks. -/
def cw4p : HTTPInferRequestProvider :=
  { model_name := "m"
    version := 1
    request_header := hdr4
    contents := [{ blocks := [[1, 2], [3, 4]], cursor := 0, cached := none }] }

/-- Witness for claim C4 at concrete inputs. -/
theorem claim_c4_input_validation_witness :
    validateInput [] 1 { name := "A", byte_size := 4 } =
      Status.invalidArgument "unknown input" ∧
    validateInput cfg4 1 { name := "A", byte_size := 5 } =
      Status.invalidArgument "input byte size does not match expected size" ∧
    validateInput cfg4 1 { name := "A", byte_size := 4 } = Status.ok :=
  ⟨claim_c4_input_validation.1 [] 1 { name := "A", byte_size := 4 } (by decide),
    claim_c4_input_validation.2.1 cfg4 1 { name := "A", byte_size := 5 }
      { name := "A", data_type := DataType.dtInt8, dims := [4] } (by decide) (by decide),
    claim_c4_input_validation.2.2 "m" 1 cfg4 hdr4 [[[1, 2], [3, 4]]] cw4p
      (by rfl) { name := "A", byte_size := 4 } (by decide)⟩

/-- Claim C6: the first `SetScheduler` call on a servable with no
scheduler succeeds and installs the scheduler; every call on an
already-configured servable fails and leaves the installed scheduler
unchanged. -/
theorem claim_c6_set_scheduler (s : InferenceServable) (sched : Nat) :
    (s.scheduler_ = none →
      s.SetScheduler sched = (Status.ok, { s with scheduler_ := some sched })) ∧
    (∀ k : Nat, s.scheduler_ = some k →
      (s.SetScheduler sched).1 ≠ Status.ok ∧ (s.SetScheduler sched).2 = s) := by
  unfold InferenceServable.SetScheduler
  refine ⟨fun h => by rw [h], fun k h => ?_⟩
  rw [h]
  exact ⟨by simp, rfl⟩

/-- A fresh servable: no scheduler, empty metric caches. -/
def sv0 : InferenceServable :=
  { scheduler_ := none
    metric_inf_success_ := { next_id := 0, entries := [] }
    metric_inf_failure_ := { next_id := 0, entries := [] } }

/-- Witness for claim C6 at a concrete servable. -/
theorem claim_c6_set_scheduler_witness :
    sv0.SetScheduler 5 = (Status.ok, { sv0 with scheduler_ := some 5 }) ∧
    ((sv0.SetScheduler 5).2.SetScheduler 7).1 ≠ Status.ok ∧
    ((sv0.SetScheduler 5).2.SetScheduler 7).2 = (sv0.SetScheduler 5).2 := by
  have h1 := (claim_c6_set_scheduler sv0 5).1 rfl
  have h2 := (claim_c6_set_scheduler (sv0.SetScheduler 5).2 7).2 5 (by rw [h1])
  exact ⟨h1, h2.1, h2.2⟩

/-- Well-formedness of a metric cache: every cached series id is below the
next fresh id, device keys are unique, and series ids are unique. -/
def MetricWF (m : MetricMap) : Prop :=
  (∀ kv ∈ m.entries, kv.2 < m.next_id) ∧
  (m.entries.map Prod.fst).Nodup ∧
  (m.entries.map Prod.snd).Nodup

theorem getCounterMetric_found (m : MetricMap) (d : Int) (kv : Int × Nat)
    (h : m.entries.find? (fun kv => kv.1 == d) = some kv) :
    GetCounterMetric m d = (kv.2, m) := by
  unfold GetCounterMetric
  rw [h]

theorem getCounterMetric_miss (m : MetricMap) (d : Int)
    (h : m.entries.find? (fun kv => kv.1 == d) = none) :
    GetCounterMetric m d =
      (m.next_id,
        { next_id := m.next_id + 1, entries := m.entries ++ [(d, m.next_id)] }) := by
  unfold GetCounterMetric
  rw [h]

theorem not_mem_keys_of_find?_none (m : MetricMap) (d : Int)
    (h : m.entries.find? (fun kv => kv.1 == d) = none) :
    d ∉ m.entries.map Prod.fst := by
  intro hmem
  obtain ⟨kv, hkv, hkv1⟩ := List.mem_map.mp hmem
  have := List.find?_eq_none.mp h kv hkv
  rw [hkv1] at this
  simp at this

theorem metricWF_preserved (m : MetricMap) (d : Int) (hwf : MetricWF m) :
    MetricWF (GetCounterMetric m d).2 := by
  obtain ⟨hb, hk, hs⟩ := hwf
  cases hfind : m.entries.find? (fun kv => kv.1 == d) with
  | some kv =>
    rw [getCounterMetric_found m d kv hfind]
    exact ⟨hb, hk, hs⟩
  | none =>
    rw [getCounterMetric_miss m d hfind]
    refine ⟨?_, ?_, ?_⟩
    · intro kv hkv
      rcases List.mem_append.mp hkv with hm | hm
      · exact Nat.lt_succ_of_lt (hb kv hm)
      · have : kv = (d, m.next_id) := by simpa using hm
        rw [this]
        exact Nat.lt_succ_self _
    · simp only [List.map_append, List.map_cons, List.map_nil]
      rw [List.nodup_append]
      refine ⟨hk, by simp, ?_⟩
      intro a ha hm
      simp at hm
      rw [hm] at ha
      exact not_mem_keys_of_find?_none m d hfind ha
    · simp only [List.map_append, List.map_cons, List.map_nil]
      rw [List.nodup_append]
      refine ⟨hs, by simp, ?_⟩
      intro a ha hm
      simp at hm
      obtain ⟨kv, hkv, hkv2⟩ := List.mem_map.mp ha
      rw [hm] at hkv2
      exact absurd hkv2 (Nat.ne_of_lt (hb kv hkv))

/-- Claim C7: on a well-formed metric cache, the accessor returns distinct
series for distinct device indices (such as -1 and 3), two calls with the
same device index return the same series instance and leave the cache
unchanged, and well-formedness (exactly one cache entry per device key)
is preserved. -/
theorem claim_c7_metric_series (m : MetricMap) (d1 d2 : Int) (hwf : MetricWF m) :
    (d1 ≠ d2 →
      (GetCounterMetric (GetCounterMetric m d1).2 d2).1 ≠ (GetCounterMetric m d1).1) ∧
    (GetCounterMetric (GetCounterMetric m d1).2 d1 =
      ((GetCounterMetric m d1).1, (GetCounterMetric m d1).2)) ∧
    MetricWF (GetCounterMetric m d1).2 := by
  obtain ⟨hb, hk, hs⟩ := hwf
  cases hfind1 : m.entries.find? (fun kv => kv.1 == d1) with
  | some kv1 =>
    have hkv1 : kv1.1 = d1 := by
      have := List.find?_some hfind1
      simpa using this
    have hkv1m : kv1 ∈ m.entries := List.mem_of_find?_eq_some hfind1
    rw [getCounterMetric_found m d1 kv1 hfind1]
    refine ⟨?_, ?_, ⟨hb, hk, hs⟩⟩
    · intro hne
      cases hfind2 : m.entries.find? (fun kv => kv.1 == d2) with
      | some kv2 =>
        rw [getCounterMetric_found m d2 kv2 hfind2]
        intro heq
        have hkv2 : kv2.1 = d2 := by
          have := List.find?_some hfind2
          simpa using this
        have hkv2m : kv2 ∈ m.entries := List.mem_of_find?_eq_some hfind2
        have : kv2 = kv1 :=
          List.inj_on_of_nodup_map hs hkv2m hkv1m (by simpa using heq)
        rw [this, hkv1] at hkv2
        exact hne hkv2
      | none =>
        rw [getCounterMetric_miss m d2 hfind2]
        exact Nat.ne_of_gt (hb kv1 hkv1m)
    · rw [getCounterMetric_found m d1 kv1 hfind1]
  | none =>
    rw [getCounterMetric_miss m d1 hfind1]
    have hwf2 : MetricWF (GetCounterMetric m d1).2 :=
      metricWF_preserved m d1 ⟨hb, hk, hs⟩
    rw [getCounterMetric_miss m d1 hfind1] at hwf2
    have hfindext : ∀ d : Int,
        (m.entries ++ [(d1, m.next_id)]).find? (fun kv => kv.1 == d) =
          ((m.entries.find? (fun kv => kv.1 == d)).or
            ([(d1, m.next_id)].find? (fun kv => kv.1 == d))) :=
      fun d => List.find?_append
    refine ⟨?_, ?_, hwf2⟩
    · intro hne
      cases hfind2 : m.entries.find? (fun kv => kv.1 == d2) with
      | some kv2 =>
        have hkv2m : kv2 ∈ m.entries := List.mem_of_find?_eq_some hfind2
        have hfind2e : (m.entries ++ [(d1, m.next_id)]).find? (fun kv => kv.1 == d2) =
            some kv2 := by
          rw [hfindext d2, hfind2]
          rfl
        rw [getCounterMetric_found _ d2 kv2 hfind2e]
        show kv2.2 ≠ m.next_id
        exact Nat.ne_of_lt (hb kv2 hkv2m)
      | none =>
        have hfind2e : (m.entries ++ [(d1, m.next_id)]).find? (fun kv => kv.1 == d2) =
            none := by
          rw [hfindext d2, hfind2]
          have hdd : (d1 == d2) = false := by
            rw [beq_eq_false_iff_ne]
            exact hne
          simp [List.find?, hdd]
        rw [getCounterMetric_miss _ d2 hfind2e]
        simp
    · have hfind1e : (m.entries ++ [(d1, m.next_id)]).find? (fun kv => kv.1 == d1) =
          some (d1, m.next_id) := by
        rw [hfindext d1, hfind1]
        simp [List.find?]
      rw [getCounterMetric_found _ d1 (d1, m.next_id) hfind1e]

/-- An empty metric cache. -/
def mm0 : MetricMap := { next_id := 0, entries := [] }

/-- Witness for claim C7 at the aggregate index -1 and device index 3 of
an empty cache. -/
theorem claim_c7_metric_series_witness :
    (GetCounterMetric (GetCounterMetric mm0 (-1)).2 3).1 ≠ (GetCounterMetric mm0 (-1)).1 ∧
    GetCounterMetric (GetCounterMetric mm0 (-1)).2 (-1) =
      ((GetCounterMetric mm0 (-1)).1, (GetCounterMetric mm0 (-1)).2) := by
  have h := claim_c7_metric_series mm0 (-1) 3
    ⟨fun kv hkv => by simp [mm0] at hkv, by simp [mm0], by simp [mm0]⟩
  exact ⟨h.1 (by decide), h.2.1⟩

end NvInfer
